import Mathlib

set_option maxRecDepth 4000

/- Verification of the configuration-resolution core of autodiscover-mail-toml.

   The embedding mirrors src/src/autodiscovermail/config.py and the
   get_context layering logic of src/src/autodiscovermail/main.py.

   Modelling notes:
   * A Python object's __dict__ is modelled as an ordered association list
     (insertion order = dataclass field order), including the "_stack" and
     "prefix" entries, since self_reference's local lookup ranges over the
     whole __dict__.
   * Values appearing in the tree are strings, integers and lists of strings
     (PyVal); a Provider field may additionally hold a child node (PEntry).
     The three children of Provider (InServer, OutServer, EmailAddress) are
     leaf nodes: their __dict__ never holds a ConfigClass value in this
     program, so LeafNode.self_reference has no child-search loop.
   * Python raises KeyError(f"{name} not found") / TypeError; the embedding
     returns Except with RErr.keyError carrying the looked-up name, and
     RErr.typeError for re.finditer applied to a non-string candidate.
   * The mutual recursion of self_reference and value_proxy is not
     structurally terminating in Python (no cycle guard), so value_proxy
     takes a fuel parameter; RErr.fuelOut is the artifact for exhausted fuel
     and corresponds to no Python behaviour on terminating executions.
-/

inductive PyVal where
  | pstr (s : String)
  | pint (n : Int)
  | plist (l : List String)
deriving DecidableEq

structure LeafNode where
  pfx : String
  dict : List (String × PyVal)
deriving DecidableEq

inductive PEntry where
  | val (v : PyVal)
  | node (nd : LeafNode)
deriving DecidableEq

structure ProviderNode where
  pfx : String
  dict : List (String × PEntry)
deriving DecidableEq

inductive RErr where
  | keyError (name : String)
  | typeError
  | fuelOut
deriving DecidableEq

/-- Ordered-dict lookup: first binding of the key wins (Python dicts have
unique keys, so the association lists built from them have unique keys). -/
def alookup {α : Type} : List (String × α) → String → Option α
  | [], _ => none
  | (k, v) :: rest, key => if k = key then some v else alookup rest key

/-- Python dict assignment `d[k] = v`: replace in place if the key exists,
else append at the end. -/
def dictSet {α : Type} : List (String × α) → String → α → List (String × α)
  | [], k, v => [(k, v)]
  | (k', v') :: rest, k, v =>
    if k' = k then (k', v) :: rest else (k', v') :: dictSet rest k v

/-- Python str.strip(chars): remove any character occurring in `chars` from
both ends of `s` (a character-set strip, not prefix removal). -/
def pyStrip (s chars : String) : String :=
  String.mk (((s.toList.dropWhile (fun c => chars.toList.contains c)).reverse.dropWhile
      (fun c => chars.toList.contains c)).reverse)

/-- Python str.split(sep) with a single-character separator. -/
def splitOnChar (sep : Char) : List Char → List (List Char)
  | [] => [[]]
  | c :: cs =>
    let r := splitOnChar sep cs
    if c = sep then [] :: r
    else
      match r with
      | h :: t => (c :: h) :: t
      | [] => [[c]]

structure EmailAddress where
  full_address : String
  domain : String
  local_part : String
deriving DecidableEq

/-- EmailAddress.from_string: `local_part, domain = address.split("@")`
succeeds only when the split yields exactly two parts (exactly one `@`);
any other shape raises ValueError and both parts become empty. -/
def EmailAddress.from_string (address : String) : EmailAddress :=
  match splitOnChar '@' address.toList with
  | [l, d] => { full_address := address, domain := String.mk d, local_part := String.mk l }
  | _ => { full_address := address, domain := "", local_part := "" }

/-- Scanner state for the regex `##(?P<name>[^#]+)##`: outside any
candidate; one `#` seen; inside a body after `##` (accumulated reversed);
or one closing `#` seen after a non-empty body. -/
inductive ScanSt where
  | plain
  | hash1
  | body (acc : List Char)
  | bodyHash (acc : List Char)

/-- One-pass scanner equivalent to re.finditer with `##([^#]+)##`: leftmost
non-overlapping matches, continuing after each match. Since the body class
excludes '#', a failed candidate can never overlap a later match start, so
the single pass agrees with the regex engine's scan-and-retry. Returns the
list of group names in match order. -/
def scanGo : List Char → ScanSt → List String
  | [], _ => []
  | c :: cs, .plain => if c = '#' then scanGo cs .hash1 else scanGo cs .plain
  | c :: cs, .hash1 => if c = '#' then scanGo cs (.body []) else scanGo cs .plain
  | c :: cs, .body acc =>
    if c = '#' then
      match acc with
      | [] => scanGo cs (.body [])
      | _ :: _ => scanGo cs (.bodyHash acc)
    else scanGo cs (.body (c :: acc))
  | c :: cs, .bodyHash acc =>
    if c = '#' then String.mk acc.reverse :: scanGo cs .plain
    else scanGo cs .plain

def scanAux (l : List Char) : List String := scanGo l .plain

def scanTokens (s : String) : List String := scanAux s.toList

/-- Python str.replace: replace every non-overlapping occurrence of `pat`,
scanning left to right. The Nat argument counts characters still to be
skipped because they belong to an occurrence already replaced. (`pat` is
never empty at the call sites: it always has the shape `##NAME##`.) -/
def replaceGo (pat rep : List Char) : List Char → Nat → List Char
  | [], _ => []
  | _ :: cs, n + 1 => replaceGo pat rep cs n
  | c :: cs, 0 =>
    if pat ≠ [] ∧ pat.isPrefixOf (c :: cs) then
      rep ++ replaceGo pat rep cs (pat.length - 1)
    else
      c :: replaceGo pat rep cs 0

def replaceAux (pat rep s : List Char) : List Char := replaceGo pat rep s 0

def pyReplace (s pat rep : String) : String :=
  String.mk (replaceAux pat.toList rep.toList s.toList)

/-- The static_references class attribute of ConfigClass. -/
def static_references : List (String × String) := [("EMAILADDRESS", "##full_address##")]

/-- The substitution loop of ConfigClass.value_proxy: iterate over the
matches found in the ORIGINAL string (finditer is run once), resolving each
token name via `sr` and replacing all occurrences of `##name##` in the
current working string. Any error propagates (`except KeyError: raise`). -/
def tokenLoop (sr : String → Except RErr String) : List String → String → Except RErr String
  | [], cur => .ok cur
  | t :: ts, cur =>
    match sr t with
    | .ok repl => tokenLoop sr ts (pyReplace cur ("##" ++ t ++ "##") repl)
    | .error e => .error e

/-- ConfigClass.self_reference for a leaf node (no ConfigClass values in its
__dict__, so the child loop finds nothing): static-table hit, then the
prefix-stripped local lookup overwrites it; the final candidate is passed
through value_proxy (the `vp` argument closes over the root and the fuel). -/
def LeafNode.self_reference (vp : PEntry → Except RErr String) (nd : LeafNode)
    (name : String) : Except RErr String :=
  let afterStatic : Option PyVal := (alookup static_references name).map PyVal.pstr
  let localKey := pyStrip name nd.pfx
  let newName : Option PyVal :=
    match alookup nd.dict localKey with
    | some v => some v
    | none => afterStatic
  match newName with
  | none => .error (.keyError name)
  | some v => vp (.val v)

/-- The child-search loop of self_reference on the Provider node: every
ConfigClass value in __dict__ is tried in order, a success overwrites the
accumulator, a KeyError is swallowed, any other error propagates. -/
def childLoop (vp : PEntry → Except RErr String) (name : String) :
    List (String × PEntry) → Option String → Except RErr (Option String)
  | [], acc => .ok acc
  | (_, .val _) :: rest, acc => childLoop vp name rest acc
  | (_, .node nd) :: rest, acc =>
    match nd.self_reference vp name with
    | .ok s => childLoop vp name rest (some s)
    | .error (.keyError _) => childLoop vp name rest acc
    | .error e => .error e

/-- ConfigClass.self_reference on the Provider (root) node: children first
(last success wins), a static-table hit overwrites the child result, the
prefix-stripped local lookup overwrites both; KeyError when nothing matched,
otherwise the candidate goes through value_proxy. A local hit may return a
non-string __dict__ value (an int, a list, or a child node). -/
def ProviderNode.self_reference (vp : PEntry → Except RErr String) (p : ProviderNode)
    (name : String) : Except RErr String :=
  match childLoop vp name p.dict none with
  | .error e => .error e
  | .ok acc =>
    let afterStatic : Option PEntry :=
      match alookup static_references name with
      | some s => some (.val (.pstr s))
      | none => acc.map (fun s => .val (.pstr s))
    let localKey := pyStrip name p.pfx
    let newName : Option PEntry :=
      match alookup p.dict localKey with
      | some e => some e
      | none => afterStatic
    match newName with
    | none => .error (.keyError name)
    | some e => vp e

/-- ConfigClass.value_proxy with the root as lookup source (in this program
the lookup_source threaded through every call is always the original root).
A non-string argument is what Python feeds to re.finditer, raising
TypeError. Fuel bounds the recursion depth (Python has no cycle guard). -/
def value_proxy (root : ProviderNode) : Nat → PEntry → Except RErr String
  | 0, _ => .error .fuelOut
  | fuel + 1, .val (.pstr s) =>
    tokenLoop (fun nm => ProviderNode.self_reference (value_proxy root fuel) root nm)
      (scanTokens s) s
  | _ + 1, _ => .error .typeError

/-- The new value of one leaf field in ConfigClass.update_from_config: the
"prefix" key is skipped, and a field whose flat key (prefix + field name)
occurs in the merged mapping is overwritten with the mapping's value. (The
merged mapping maps only the reserved key "address" to a node, and no leaf
flat key equals "address", so the node case leaves the field unchanged.) -/
def leafFieldNew (pfx0 : String) (cfg : List (String × PEntry)) (k : String) (v : PyVal) : PyVal :=
  if k = "prefix" then v
  else
    match alookup cfg (pfx0 ++ k) with
    | some (.val w) => w
    | _ => v

def LeafNode.update_from_config (nd : LeafNode) (cfg : List (String × PEntry)) : LeafNode :=
  ⟨nd.pfx, nd.dict.map (fun kv => (kv.1, leafFieldNew nd.pfx cfg kv.1 kv.2))⟩

/-- The first loop of ConfigClass.update_from_config on the Provider node:
recurse into every ConfigClass value before touching the node's own keys. -/
def childNew (cfg : List (String × PEntry)) (e : PEntry) : PEntry :=
  match e with
  | .node nd => .node (nd.update_from_config cfg)
  | .val v => .val v

def provFieldNew (pfx0 : String) (cfg : List (String × PEntry)) (k : String) (e : PEntry) : PEntry :=
  if k = "prefix" then e
  else
    match alookup cfg (pfx0 ++ k) with
    | some e2 => e2
    | none => e

def ProviderNode.update_from_config (p : ProviderNode) (cfg : List (String × PEntry)) : ProviderNode :=
  let d1 := p.dict.map (fun kv => (kv.1, childNew cfg kv.2))
  ⟨p.pfx, d1.map (fun kv => (kv.1, provFieldNew p.pfx cfg kv.1 kv.2))⟩

/-- Rewrite the field at position `fi` of the leaf child at position `ci`. -/
def updateLeafFieldAt (p : ProviderNode) (ci fi : Nat) (s : String) : ProviderNode :=
  match p.dict.get? ci with
  | some (k, .node nd) =>
    match nd.dict.get? fi with
    | some (fk, _) => ⟨p.pfx, p.dict.set ci (k, .node ⟨nd.pfx, nd.dict.set fi (fk, .pstr s)⟩)⟩
    | none => p
  | _ => p

/-- One step of a leaf child's resolve_references field loop: a string field
(other than "prefix") is replaced by its value_proxy result, looked up
against the CURRENT state of the whole tree (the pass mutates in place, so
later fields see earlier substitutions). -/
def resolveLeafField (fuel : Nat) (ci : Nat) (p : ProviderNode) (fi : Nat) :
    Except RErr ProviderNode :=
  match p.dict.get? ci with
  | some (_, .node nd) =>
    match nd.dict.get? fi with
    | some (fk, .pstr s) =>
      if fk = "prefix" then .ok p
      else
        match value_proxy p fuel (.val (.pstr s)) with
        | .ok r => .ok (updateLeafFieldAt p ci fi r)
        | .error e => .error e
    | _ => .ok p
  | _ => .ok p

def resolveChild (fuel : Nat) (p : ProviderNode) (ci : Nat) : Except RErr ProviderNode :=
  match p.dict.get? ci with
  | some (_, .node nd) => (List.range nd.dict.length).foldlM (resolveLeafField fuel ci) p
  | _ => .ok p

def updateProvFieldAt (p : ProviderNode) (i : Nat) (s : String) : ProviderNode :=
  match p.dict.get? i with
  | some (k, _) => ⟨p.pfx, p.dict.set i (k, .val (.pstr s))⟩
  | none => p

def resolveProvField (fuel : Nat) (p : ProviderNode) (i : Nat) : Except RErr ProviderNode :=
  match p.dict.get? i with
  | some (k, .val (.pstr s)) =>
    if k = "prefix" then .ok p
    else
      match value_proxy p fuel (.val (.pstr s)) with
      | .ok r => .ok (updateProvFieldAt p i r)
      | .error e => .error e
  | _ => .ok p

/-- ConfigClass.resolve_references on the root: every child node's string
fields first (in __dict__ order), then the root's own string fields, each
substitution running against the tree state current at that moment. -/
def ProviderNode.resolve_references (fuel : Nat) (p : ProviderNode) : Except RErr ProviderNode := do
  let p1 ← (List.range p.dict.length).foldlM (resolveChild fuel) p
  (List.range p1.dict.length).foldlM (resolveProvField fuel) p1

/-- The __dict__ of a freshly constructed InServer(): dataclass field order,
with the defaults of config.py (InServer overrides port/type/prefix). -/
def inServerDefault : LeafNode :=
  ⟨"in_", [("_stack", .plist []), ("prefix", .pstr "in_"), ("host", .pstr ""),
    ("port", .pint 143), ("socket", .pstr "STARTTLS"), ("type", .pstr "imap"),
    ("auth", .plist ["plain-password"]), ("user", .pstr "%EMAILADDRESS%")]⟩

def outServerDefault : LeafNode :=
  ⟨"out_", [("_stack", .plist []), ("prefix", .pstr "out_"), ("host", .pstr ""),
    ("port", .pint 587), ("socket", .pstr "STARTTLS"), ("type", .pstr "smtp"),
    ("auth", .plist ["plain-password"]), ("user", .pstr "%EMAILADDRESS%")]⟩

/-- The __dict__ of an EmailAddress instance. -/
def EmailAddress.toNode (a : EmailAddress) : LeafNode :=
  ⟨"", [("_stack", .plist []), ("prefix", .pstr ""), ("full_address", .pstr a.full_address),
    ("domain", .pstr a.domain), ("local_part", .pstr a.local_part)]⟩

/-- A Provider node with default servers; `tuple("",)` in the source is
tuple(""), the empty tuple, so the default domains list is empty. -/
def mkProvider (idv ns ndp doms : PyVal) (addr : LeafNode) : ProviderNode :=
  ⟨"", [("_stack", .val (.plist [])), ("prefix", .val (.pstr "")), ("id", .val idv),
    ("name_short", .val ns), ("name_display", .val ndp), ("domains", .val doms),
    ("in_server", .node inServerDefault), ("out_server", .node outServerDefault),
    ("address", .node addr)]⟩

/-- Provider(): the tree get_context constructs before update_from_config. -/
def defaultProvider : ProviderNode :=
  mkProvider (.pstr "") (.pstr "") (.pstr "") (.plist []) ((EmailAddress.from_string "").toNode)

/-- A default-shaped tree whose EmailAddress child carries the given parts
(the state after update_from_config has routed the identity in). -/
def stdTree (full dom loc : String) : ProviderNode :=
  mkProvider (.pstr "") (.pstr "") (.pstr "") (.plist [])
    (EmailAddress.toNode { full_address := full, domain := dom, local_part := loc })

/-- The parsed TOML configuration: a provider section of flat keys, and the
domain/user override sections keyed by domain name / identity string. -/
structure RawConfig where
  provider : List (String × PyVal)
  domainSec : List (String × List (String × PyVal))
  userSec : List (String × List (String × PyVal))

/-- One override block of get_context: `for key in ov: base[key] = ov[key]`. -/
def overlay (base : List (String × PEntry)) (ov : List (String × PyVal)) :
    List (String × PEntry) :=
  ov.foldl (fun b kv => dictSet b kv.1 (.val kv.2)) base

/-- The layering part of get_context (main.py lines 209-224): copy the
provider section, overlay the domain override and narrow `domains`, overlay
the user override and narrow `domains`, then attach the identity under the
reserved key "address". -/
def mergeLayers (cfg : RawConfig) (addr : EmailAddress) : List (String × PEntry) :=
  let base0 := cfg.provider.map (fun kv => (kv.1, PEntry.val kv.2))
  let base1 :=
    match alookup cfg.domainSec addr.domain with
    | some ov => dictSet (overlay base0 ov) "domains" (.val (.plist [addr.domain]))
    | none => base0
  let base2 :=
    match alookup cfg.userSec (addr.local_part ++ "@" ++ addr.domain) with
    | some ov => dictSet (overlay base1 ov) "domains" (.val (.plist [addr.domain]))
    | none => base1
  dictSet base2 "address" (.node addr.toNode)

def pySubstrIn (needle hay : String) : Bool :=
  (List.range (hay.toList.length + 1)).any (fun i => needle.toList.isPrefixOf (hay.toList.drop i))

/-- Python `x not in config.get("provider", {}).get("domains", [])`, negated:
list membership for a list value, substring membership for a string value,
false when the key is absent. (An int value would raise TypeError in Python;
no claim exercises that corner.) -/
def pyMem (needle : String) (v : Option PyVal) : Bool :=
  match v with
  | some (.plist l) => l.contains needle
  | some (.pstr s) => pySubstrIn needle s
  | _ => false

inductive CtxErr where
  | notFound
  | rerr (e : RErr)
deriving DecidableEq

/-- get_context of main.py: the HTTPException(404) branch is guarded by
`if email_address.domain:`, i.e. it can only fire for a NON-empty domain;
then layer, import into a fresh Provider(), resolve references and return
the tree's __dict__. -/
def get_context (fuel : Nat) (cfg : RawConfig) (addr : EmailAddress) :
    Except CtxErr (List (String × PEntry)) :=
  if addr.domain ≠ "" ∧ pyMem addr.domain (alookup cfg.provider "domains") = false
      ∧ (alookup cfg.domainSec addr.domain).isNone
      ∧ (alookup cfg.userSec (addr.local_part ++ "@" ++ addr.domain)).isNone then
    .error .notFound
  else
    let base := mergeLayers cfg addr
    let tree := defaultProvider.update_from_config base
    match ProviderNode.resolve_references fuel tree with
    | .ok t => .ok t.dict
    | .error e => .error (.rerr e)

def isOkE {α β : Type} : Except α β → Bool
  | .ok _ => true
  | .error _ => false

/-- Does some string field of the leaf still contain a `##NAME##` token? -/
def leafHasToken (nd : LeafNode) : Bool :=
  nd.dict.any (fun kv =>
    match kv.2 with
    | .pstr s => !(scanTokens s).isEmpty
    | _ => false)

def provHasToken (p : ProviderNode) : Bool :=
  p.dict.any (fun kv =>
    match kv.2 with
    | .val (.pstr s) => !(scanTokens s).isEmpty
    | .node nd => leafHasToken nd
    | _ => false)

def resultHasToken : Except RErr ProviderNode → Bool
  | .ok t => provHasToken t
  | .error _ => false

/-- A default-shaped tree whose provider-level name_short field holds the
reference `##name_display##` and whose name_display field holds a literal:
the two-step reference chain of the transitive-substitution law. -/
def c7tree (lit : String) : ProviderNode :=
  mkProvider (.pstr "") (.pstr "##name_display##") (.pstr lit) (.plist [])
    ((EmailAddress.from_string "").toNode)

/-- A default-shaped tree whose id field is `##EMAILADDRESS##X##` and whose
identity's full_address is the literal `##` (token-free on its own): the
substitution splices `##` next to `X##`, creating the new token `##X##`. -/
def c8tree : ProviderNode :=
  mkProvider (.pstr "##EMAILADDRESS##X##") (.pstr "") (.pstr "") (.plist [])
    (EmailAddress.toNode { full_address := "##", domain := "", local_part := "" })

/-- A default-shaped tree whose id field holds a placeholder that no child
field, no static entry and no local field can match: resolving it must fail. -/
def c8failTree : ProviderNode :=
  mkProvider (.pstr "##nosuch##") (.pstr "") (.pstr "") (.plist [])
    ((EmailAddress.from_string "").toNode)

/-- A provider serving only example.com, with no overrides. -/
def cfgC1 : RawConfig := { provider := [("domains", .plist ["example.com"])], domainSec := [], userSec := [] }

/-- A config where the flat key "domains" is defined, with pairwise distinct
values, in all three layers, and both overrides match alice@example.com. -/
def cfgC4 : RawConfig :=
  { provider := [("domains", .plist ["example.com", "other.example"]), ("id", .pstr "p")],
    domainSec := [("example.com", [("domains", .plist ["dov.example"]), ("in_host", .pstr "d")])],
    userSec := [("alice@example.com", [("domains", .plist ["uov.example"]), ("in_host", .pstr "u")])] }

/- ------------------------------------------------------------------ -/
/- Theorems.                                                          -/
/- ------------------------------------------------------------------ -/

theorem String.mk_toList (s : String) : String.mk s.toList = s := rfl

theorem toList_mk (l : List Char) : (String.mk l).toList = l := rfl

theorem alookup_dictSet_self {α : Type} (d : List (String × α)) (k : String) (v : α) :
    alookup (dictSet d k v) k = some v := by
  induction d with
  | nil => simp [dictSet, alookup]
  | cons kv rest ih =>
    by_cases h : kv.1 = k
    · simp [dictSet, h, alookup]
    · simp [dictSet, h, alookup, ih]

theorem alookup_dictSet_ne {α : Type} (d : List (String × α)) (k key : String) (v : α)
    (h : key ≠ k) : alookup (dictSet d k v) key = alookup d key := by
  induction d with
  | nil => simp [dictSet, alookup, Ne.symm h]
  | cons kv rest ih =>
    by_cases hk : kv.1 = k
    · subst hk
      simp [dictSet, alookup, Ne.symm h]
    · simp only [dictSet, if_neg hk]
      by_cases hkey : kv.1 = key
      · simp [alookup, hkey]
      · simp [alookup, hkey, ih]

theorem alookup_map_snd {α β : Type} (f : String → α → β) (d : List (String × α)) (k : String) :
    alookup (d.map (fun kv => (kv.1, f kv.1 kv.2))) k = (alookup d k).map (f k) := by
  induction d with
  | nil => rfl
  | cons kv rest ih =>
    by_cases h : kv.1 = k
    · subst h
      simp [alookup]
    · simp [alookup, h, ih]

theorem alookup_map_val {α β : Type} (f : α → β) (d : List (String × α)) (k : String) :
    alookup (d.map (fun kv => (kv.1, f kv.2))) k = (alookup d k).map f := by
  induction d with
  | nil => rfl
  | cons kv rest ih =>
    by_cases h : kv.1 = k
    · subst h
      simp [alookup]
    · simp [alookup, h, ih]

theorem alookup_none_of_not_mem {α : Type} (d : List (String × α)) (k : String)
    (h : k ∉ d.map Prod.fst) : alookup d k = none := by
  induction d with
  | nil => rfl
  | cons kv rest ih =>
    simp only [List.map_cons, List.mem_cons] at h
    push_neg at h
    simp [alookup, Ne.symm h.1, ih h.2]

theorem overlay_cons (b : List (String × PEntry)) (k : String) (v : PyVal)
    (rest : List (String × PyVal)) :
    overlay b ((k, v) :: rest) = overlay (dictSet b k (.val v)) rest := rfl

theorem overlay_lookup_none (ov : List (String × PyVal)) (b : List (String × PEntry))
    (F : String) (h : alookup ov F = none) : alookup (overlay b ov) F = alookup b F := by
  induction ov generalizing b with
  | nil => rfl
  | cons kv rest ih =>
    obtain ⟨k, v⟩ := kv
    by_cases hk : k = F
    · simp [alookup, hk] at h
    · simp only [alookup, if_neg hk] at h
      rw [overlay_cons, ih _ h, alookup_dictSet_ne _ _ _ _ (fun hc => hk hc.symm)]

theorem overlay_lookup_some (ov : List (String × PyVal)) (b : List (String × PEntry))
    (F : String) (v : PyVal) (hnd : (ov.map Prod.fst).Nodup) (h : alookup ov F = some v) :
    alookup (overlay b ov) F = some (.val v) := by
  induction ov generalizing b with
  | nil => simp [alookup] at h
  | cons kv rest ih =>
    obtain ⟨k, w⟩ := kv
    simp only [List.map_cons, List.nodup_cons] at hnd
    by_cases hk : k = F
    · subst hk
      simp [alookup] at h
      subst h
      rw [overlay_cons,
        overlay_lookup_none _ _ _ (alookup_none_of_not_mem _ _ hnd.1),
        alookup_dictSet_self]
    · simp only [alookup, if_neg hk] at h
      rw [overlay_cons, ih _ hnd.2 h]

theorem splitOnChar_sepfree (sep : Char) (s : List Char)
    (h : s.all (fun c => c != sep) = true) : splitOnChar sep s = [s] := by
  induction s with
  | nil => rfl
  | cons c cs ih =>
    simp only [List.all_cons, Bool.and_eq_true, bne_iff_ne] at h
    simp only [splitOnChar, if_neg h.1, ih h.2]

theorem splitOnChar_append (sep : Char) (l rest : List Char) (h0 : List Char)
    (t : List (List Char)) (hl : l.all (fun c => c != sep) = true)
    (hr : splitOnChar sep rest = h0 :: t) :
    splitOnChar sep (l ++ rest) = (l ++ h0) :: t := by
  induction l with
  | nil => simpa using hr
  | cons c cs ih =>
    simp only [List.all_cons, Bool.and_eq_true, bne_iff_ne] at hl
    simp only [List.cons_append, splitOnChar, if_neg hl.1, List.append_eq, ih hl.2]

theorem splitOnChar_sep_cons (sep : Char) (rest : List Char) :
    splitOnChar sep (sep :: rest) = [] :: splitOnChar sep rest := by
  simp [splitOnChar]

/-- C2 counterexample: on `"a@b@c"` (two `@`s) from_string yields EMPTY local
part and EMPTY domain — not the claimed split at the first `@` into `"a"` and
`"b@c"` — because `address.split("@")` returns three parts and the
ValueError handler zeroes both. -/
theorem C2_counterexample :
    (EmailAddress.from_string "a@b@c").local_part = ""
    ∧ (EmailAddress.from_string "a@b@c").domain = ""
    ∧ (EmailAddress.from_string "a@b@c").full_address = "a@b@c"
    ∧ (EmailAddress.from_string "a@b@c").local_part ≠ "a"
    ∧ (EmailAddress.from_string "a@b@c").domain ≠ "b@c" := by
  refine ⟨rfl, rfl, rfl, ?_, ?_⟩ <;> decide

/-- C2 (amended): from_string splits only a string containing EXACTLY one
`@` into the parts before and after it; a string with zero or with two or
more `@`s yields empty local part and domain; full_address always carries
the original input. -/
theorem C2_theorem :
    (∀ l d : List Char, l.all (fun c => c != '@') = true → d.all (fun c => c != '@') = true →
      EmailAddress.from_string (String.mk (l ++ '@' :: d)) =
        { full_address := String.mk (l ++ '@' :: d), domain := String.mk d,
          local_part := String.mk l })
    ∧ (∀ s : List Char, s.all (fun c => c != '@') = true →
      EmailAddress.from_string (String.mk s) =
        { full_address := String.mk s, domain := "", local_part := "" })
    ∧ (∀ a b c : List Char, a.all (fun x => x != '@') = true →
        b.all (fun x => x != '@') = true → c.all (fun x => x != '@') = true →
      EmailAddress.from_string (String.mk (a ++ '@' :: (b ++ '@' :: c))) =
        { full_address := String.mk (a ++ '@' :: (b ++ '@' :: c)), domain := "",
          local_part := "" }) := by
  refine ⟨?_, ?_, ?_⟩
  · intro l d hl hd
    have hrest : splitOnChar '@' ('@' :: d) = [] :: [d] := by
      rw [splitOnChar_sep_cons, splitOnChar_sepfree _ _ hd]
    have hs : splitOnChar '@' (l ++ '@' :: d) = [l, d] := by
      have := splitOnChar_append '@' l ('@' :: d) [] [d] hl hrest
      simpa using this
    simp [EmailAddress.from_string, toList_mk, hs]
  · intro s hs
    have h1 : splitOnChar '@' s = [s] := splitOnChar_sepfree _ _ hs
    simp only [EmailAddress.from_string, toList_mk, h1]
  · intro a b c ha hb hc
    have hrest2 : splitOnChar '@' ('@' :: c) = [] :: [c] := by
      rw [splitOnChar_sep_cons, splitOnChar_sepfree _ _ hc]
    have hbc : splitOnChar '@' (b ++ '@' :: c) = [b, c] := by
      have := splitOnChar_append '@' b ('@' :: c) [] [c] hb hrest2
      simpa using this
    have hrest3 : splitOnChar '@' ('@' :: (b ++ '@' :: c)) = [] :: [b, c] := by
      rw [splitOnChar_sep_cons, hbc]
    have hs : splitOnChar '@' (a ++ '@' :: (b ++ '@' :: c)) = [a, b, c] := by
      have := splitOnChar_append '@' a ('@' :: (b ++ '@' :: c)) [] [b, c] ha hrest3
      simpa using this
    simp only [EmailAddress.from_string, toList_mk, hs]

/-- C2 witness: the amended statement applied to "alice" and "example.com". -/
theorem C2_witness :
    EmailAddress.from_string (String.mk ("alice".toList ++ '@' :: "example.com".toList)) =
      { full_address := String.mk ("alice".toList ++ '@' :: "example.com".toList),
        domain := String.mk "example.com".toList,
        local_part := String.mk "alice".toList } :=
  C2_theorem.1 "alice".toList "example.com".toList (by decide) (by decide)

/-- C3: the reference lookup does NOT strip the node's prefix from the
token name — Python's `name.strip(self.prefix)` removes the CHARACTERS of
the prefix from both ends. For the outgoing server's prefix "out_" the flat
token "out_user" is mangled to "ser" (and "out_host" to "hos"), the local
match misses, and the whole lookup raises KeyError instead of returning the
field's value, on the default Provider tree at any sufficient fuel. -/
theorem C3_theorem :
    (∀ n, value_proxy defaultProvider (n + 1) (.val (.pstr "##out_user##")) =
      .error (.keyError "out_user"))
    ∧ pyStrip "out_user" "out_" = "ser"
    ∧ pyStrip "out_host" "out_" = "hos"
    ∧ alookup outServerDefault.dict "user" = some (.pstr "%EMAILADDRESS%") := by
  refine ⟨fun n => rfl, rfl, rfl, rfl⟩

/-- C10: a token whose lookup resolves to a non-string field value — here
"in_port", which strips (correctly, for the "in_" prefix) to the InServer
field "port" holding the integer 143 — is passed to value_proxy, which
feeds it to re.finditer: a TypeError, not the not-found KeyError, at any
fuel that reaches the inner call. -/
theorem C10_theorem :
    ∀ n, value_proxy defaultProvider (n + 2) (.val (.pstr "##in_port##")) =
      .error .typeError := by
  intro n
  rfl

/-- C4 counterexample: with "domains" defined in all three layers with
pairwise distinct values and both overrides matching alice@example.com, the
merged mapping's "domains" is the narrowed single-element list
["example.com"], not the user layer's value ["uov.example"]: the narrowing
assignment runs AFTER each overlay and wins over the user override. -/
theorem C4_counterexample :
    alookup (mergeLayers cfgC4 (EmailAddress.from_string "alice@example.com")) "domains" =
      some (.val (.plist ["example.com"]))
    ∧ alookup (mergeLayers cfgC4 (EmailAddress.from_string "alice@example.com")) "domains" ≠
      some (.val (.plist ["uov.example"]))
    ∧ alookup cfgC4.provider "domains" = some (.plist ["example.com", "other.example"])
    ∧ (alookup cfgC4.domainSec "example.com").map (fun ov => alookup ov "domains") =
      some (some (.plist ["dov.example"]))
    ∧ (alookup cfgC4.userSec "alice@example.com").map (fun ov => alookup ov "domains") =
      some (some (.plist ["uov.example"])) := by
  exact ⟨rfl, by decide, rfl, rfl, rfl⟩

/-- C4 (amended): for every flat key F OTHER THAN "domains" and "address"
(those two are unconditionally reassigned after the overlays), a key
defined in the matched user override resolves to the user layer's value;
and a key defined in the provider layer and not overridden by a matched
domain or user layer keeps the provider's value (an upper layer never
deletes a lower layer's key). -/
theorem C4_theorem :
    (∀ (cfg : RawConfig) (addr : EmailAddress) (F : String)
        (uov : List (String × PyVal)) (Uv : PyVal),
      F ≠ "domains" → F ≠ "address" →
      alookup cfg.userSec (addr.local_part ++ "@" ++ addr.domain) = some uov →
      (uov.map Prod.fst).Nodup →
      alookup uov F = some Uv →
      alookup (mergeLayers cfg addr) F = some (.val Uv))
    ∧ (∀ (cfg : RawConfig) (addr : EmailAddress) (F : String) (Pv : PyVal),
      F ≠ "domains" → F ≠ "address" →
      alookup cfg.provider F = some Pv →
      (∀ dov, alookup cfg.domainSec addr.domain = some dov → alookup dov F = none) →
      (∀ uov, alookup cfg.userSec (addr.local_part ++ "@" ++ addr.domain) = some uov →
        alookup uov F = none) →
      alookup (mergeLayers cfg addr) F = some (.val Pv)) := by
  constructor
  · intro cfg addr F uov Uv hFd hFa huser hnd hUv
    simp only [mergeLayers]
    rw [huser, alookup_dictSet_ne _ _ _ _ hFa, alookup_dictSet_ne _ _ _ _ hFd,
      overlay_lookup_some _ _ _ _ hnd hUv]
  · intro cfg addr F Pv hFd hFa hprov hdom huse
    simp only [mergeLayers]
    have hbase0 : alookup (cfg.provider.map (fun kv => (kv.1, PEntry.val kv.2))) F =
        some (.val Pv) := by
      rw [alookup_map_val PEntry.val cfg.provider F, hprov]
      rfl
    rcases h1 : alookup cfg.domainSec addr.domain with _ | dov
    · rcases h2 : alookup cfg.userSec (addr.local_part ++ "@" ++ addr.domain) with _ | uov
      · rw [alookup_dictSet_ne _ _ _ _ hFa, hbase0]
      · rw [alookup_dictSet_ne _ _ _ _ hFa, alookup_dictSet_ne _ _ _ _ hFd,
          overlay_lookup_none _ _ _ (huse uov h2), hbase0]
    · rcases h2 : alookup cfg.userSec (addr.local_part ++ "@" ++ addr.domain) with _ | uov
      · rw [alookup_dictSet_ne _ _ _ _ hFa, alookup_dictSet_ne _ _ _ _ hFd,
          overlay_lookup_none _ _ _ (hdom dov h1), hbase0]
      · rw [alookup_dictSet_ne _ _ _ _ hFa, alookup_dictSet_ne _ _ _ _ hFd,
          overlay_lookup_none _ _ _ (huse uov h2), alookup_dictSet_ne _ _ _ _ hFd,
          overlay_lookup_none _ _ _ (hdom dov h1), hbase0]

/-- C4 witness: the amended precedence applied to cfgC4 at flat key
"in_host", defined in all three layers, resolving to the user value "u". -/
theorem C4_witness :
    alookup (mergeLayers cfgC4 (EmailAddress.from_string "alice@example.com")) "in_host" =
      some (.val (.pstr "u")) :=
  C4_theorem.1 cfgC4 (EmailAddress.from_string "alice@example.com") "in_host"
    [("domains", .plist ["uov.example"]), ("in_host", .pstr "u")] (.pstr "u")
    (by decide) (by decide) rfl (by decide) rfl

/-- C5: whenever the domain override or the user override (or both) matched,
the merged mapping's "domains" entry is exactly the one-element list holding
the requested identity's domain — even when the matched override itself
defines a "domains" key — because the narrowing assignment runs after each
overlay. -/
theorem C5_theorem :
    ∀ (cfg : RawConfig) (addr : EmailAddress),
      ((alookup cfg.domainSec addr.domain).isSome = true
        ∨ (alookup cfg.userSec (addr.local_part ++ "@" ++ addr.domain)).isSome = true) →
      alookup (mergeLayers cfg addr) "domains" = some (.val (.plist [addr.domain])) := by
  intro cfg addr hmatch
  have hda : ("domains" : String) ≠ "address" := by decide
  simp only [mergeLayers]
  rcases h2 : alookup cfg.userSec (addr.local_part ++ "@" ++ addr.domain) with _ | uov
  · rcases h1 : alookup cfg.domainSec addr.domain with _ | dov
    · rw [h1] at hmatch
      rw [h2] at hmatch
      simp at hmatch
    · rw [alookup_dictSet_ne _ _ _ _ hda, alookup_dictSet_self]
  · rw [alookup_dictSet_ne _ _ _ _ hda, alookup_dictSet_self]

/-- C5 witness: both overrides of cfgC4 match alice@example.com and both
define their own "domains"; the merged entry is still ["example.com"]. -/
theorem C5_witness :
    alookup (mergeLayers cfgC4 (EmailAddress.from_string "alice@example.com")) "domains" =
      some (.val (.plist [(EmailAddress.from_string "alice@example.com").domain])) :=
  C5_theorem cfgC4 (EmailAddress.from_string "alice@example.com") (Or.inl (by decide))

/-- C1 counterexample: the malformed identity "not-an-email" (no `@`,
normalizing to empty local part and domain) does NOT raise NotFound against
a provider that serves only example.com and has no overrides — get_context
guards the whole 404 check with `if email_address.domain:`, so an empty
domain skips it and resolution succeeds on provider defaults. -/
theorem C1_counterexample :
    isOkE (get_context 12 cfgC1 (EmailAddress.from_string "not-an-email")) = true
    ∧ (EmailAddress.from_string "not-an-email").domain = ""
    ∧ pyMem "" (alookup cfgC1.provider "domains") = false := by
  exact ⟨rfl, rfl, rfl⟩

/-- C1 (amended): for every identity with a NON-EMPTY domain that is not
served by the provider, not a key of the domain-override section, and whose
local@domain string is not a key of the user-override section, get_context
raises NotFound; a malformed identity with empty domain skips the check. -/
theorem C1_theorem :
    ∀ (fuel : Nat) (cfg : RawConfig) (addr : EmailAddress),
      addr.domain ≠ "" →
      pyMem addr.domain (alookup cfg.provider "domains") = false →
      alookup cfg.domainSec addr.domain = none →
      alookup cfg.userSec (addr.local_part ++ "@" ++ addr.domain) = none →
      get_context fuel cfg addr = .error .notFound := by
  intro fuel cfg addr hd hserved hdom huse
  simp only [get_context]
  rw [if_pos ⟨hd, hserved, by rw [hdom]; rfl, by rw [huse]; rfl⟩]

/-- C1 witness: nobody@unknown.tld against cfgC1 hits NotFound. -/
theorem C1_witness :
    get_context 12 cfgC1 (EmailAddress.from_string "nobody@unknown.tld") =
      .error .notFound :=
  C1_theorem 12 cfgC1 (EmailAddress.from_string "nobody@unknown.tld")
    (by decide) (by decide) rfl rfl

/-- C9: update_from_config is a total function (it cannot fail) and for
every node — leaf or provider — and every field key other than the skipped
"prefix": a field whose flat key (node prefix ++ field name) is present in
the merged mapping is overwritten with the mapping's value, and a field
whose flat key is absent keeps its current (default) value; for a provider
field held as a plain value an absent key leaves it untouched (child nodes
are recursed into instead, by the first loop). -/
theorem C9_theorem :
    ∀ (nd : LeafNode) (p : ProviderNode) (cfg : List (String × PEntry)) (k : String),
      k ≠ "prefix" →
      ((∀ w, alookup cfg (nd.pfx ++ k) = some (.val w) →
          alookup (nd.update_from_config cfg).dict k = (alookup nd.dict k).map (fun _ => w))
        ∧ (alookup cfg (nd.pfx ++ k) = none →
          alookup (nd.update_from_config cfg).dict k = alookup nd.dict k)
        ∧ (∀ e, alookup cfg (p.pfx ++ k) = some e →
          alookup (p.update_from_config cfg).dict k = (alookup p.dict k).map (fun _ => e))
        ∧ (∀ v, alookup cfg (p.pfx ++ k) = none → alookup p.dict k = some (.val v) →
          alookup (p.update_from_config cfg).dict k = some (.val v))) := by
  intro nd p cfg k hk
  have hleaf : alookup (nd.update_from_config cfg).dict k =
      (alookup nd.dict k).map (leafFieldNew nd.pfx cfg k) :=
    alookup_map_snd (leafFieldNew nd.pfx cfg) nd.dict k
  have hprov : alookup (p.update_from_config cfg).dict k =
      ((alookup p.dict k).map (fun e => childNew cfg e)).map (provFieldNew p.pfx cfg k) := by
    simp only [ProviderNode.update_from_config]
    rw [alookup_map_snd (provFieldNew p.pfx cfg) _ k, alookup_map_val (childNew cfg) p.dict k]
  refine ⟨?_, ?_, ?_, ?_⟩
  · intro w hw
    rw [hleaf]
    cases alookup nd.dict k with
    | none => rfl
    | some v => simp [leafFieldNew, hk, hw]
  · intro hnone
    rw [hleaf]
    cases alookup nd.dict k with
    | none => rfl
    | some v => simp [leafFieldNew, hk, hnone]
  · intro e he
    rw [hprov]
    cases alookup p.dict k with
    | none => rfl
    | some e0 => simp [provFieldNew, hk, he]
  · intro v hnone hval
    rw [hprov, hval]
    simp [provFieldNew, hk, hnone, childNew]

/-- C9 witness: importing the flat key "in_host" into the default incoming
server overwrites its host field; the absent key "in_socket" stays default. -/
theorem C9_witness :
    alookup ((inServerDefault.update_from_config
        [("in_host", PEntry.val (PyVal.pstr "mail.example.com"))]).dict) "host" =
      (alookup inServerDefault.dict "host").map (fun _ => PyVal.pstr "mail.example.com") :=
  (C9_theorem inServerDefault defaultProvider
    [("in_host", PEntry.val (PyVal.pstr "mail.example.com"))] "host" (by decide)).1
    (PyVal.pstr "mail.example.com") rfl

theorem scanGo_plain_ne (c : Char) (l : List Char) (h : c ≠ '#') :
    scanGo (c :: l) .plain = scanGo l .plain := by
  simp [scanGo, h]

theorem scanGo_app_nohash (pre l : List Char) (h : pre.all (fun c => c != '#') = true) :
    scanGo (pre ++ l) .plain = scanGo l .plain := by
  induction pre with
  | nil => rfl
  | cons c cs ih =>
    simp only [List.all_cons, Bool.and_eq_true, bne_iff_ne] at h
    rw [List.cons_append, scanGo_plain_ne _ _ h.1, ih h.2]

theorem scanGo_nohash (l : List Char) (h : l.all (fun c => c != '#') = true) :
    scanGo l .plain = [] := by
  have := scanGo_app_nohash l [] h
  simpa using this

theorem scanGo_body_consume (name rest : List Char) (acc : List Char)
    (h : name.all (fun c => c != '#') = true) :
    scanGo (name ++ rest) (.body acc) = scanGo rest (.body (name.reverse ++ acc)) := by
  induction name generalizing acc with
  | nil => rfl
  | cons c cs ih =>
    simp only [List.all_cons, Bool.and_eq_true, bne_iff_ne] at h
    rw [List.cons_append]
    have hstep : scanGo (c :: (cs ++ rest)) (.body acc) = scanGo (cs ++ rest) (.body (c :: acc)) := by
      simp [scanGo, h.1]
    rw [hstep, ih _ h.2]
    simp

theorem scanGo_token (name post : List Char) (hne : name ≠ [])
    (hn : name.all (fun c => c != '#') = true) :
    scanGo ('#' :: '#' :: (name ++ '#' :: '#' :: post)) .plain =
      String.mk name :: scanGo post .plain := by
  have h1 : scanGo ('#' :: '#' :: (name ++ '#' :: '#' :: post)) .plain =
      scanGo (name ++ '#' :: '#' :: post) (.body []) := by
    simp [scanGo]
  rw [h1, scanGo_body_consume _ _ _ hn]
  rcases hrev : name.reverse with _ | ⟨a, as⟩
  · exact absurd (by simpa using hrev) hne
  · simp only [List.append_nil]
    have h2 : scanGo ('#' :: '#' :: post) (.body (a :: as)) =
        scanGo ('#' :: post) (.bodyHash (a :: as)) := by
      simp [scanGo]
    rw [h2]
    have h3 : scanGo ('#' :: post) (.bodyHash (a :: as)) =
        String.mk (a :: as).reverse :: scanGo post .plain := by
      simp [scanGo]
    rw [h3]
    have h4 : (a :: as).reverse = name := by
      rw [← hrev, List.reverse_reverse]
    rw [h4]

theorem isPrefixOf_append_self (a b : List Char) : a.isPrefixOf (a ++ b) = true := by
  induction a with
  | nil => simp [List.isPrefixOf]
  | cons c cs ih => simp [List.isPrefixOf, ih]

theorem not_isPrefixOf_of_head_ne (p : Char) (pt : List Char) (c : Char) (cs : List Char)
    (h : c ≠ p) : (p :: pt).isPrefixOf (c :: cs) = false := by
  simp [List.isPrefixOf, Ne.symm h]

theorem replaceGo_nohash (pt rep l : List Char) (h : l.all (fun c => c != '#') = true) :
    replaceGo ('#' :: pt) rep l 0 = l := by
  induction l with
  | nil => rfl
  | cons c cs ih =>
    simp only [List.all_cons, Bool.and_eq_true, bne_iff_ne] at h
    have hpre := not_isPrefixOf_of_head_ne '#' pt c cs h.1
    simp [replaceGo, hpre, ih h.2]

theorem replaceGo_app_nohash (pt rep pre l : List Char)
    (h : pre.all (fun c => c != '#') = true) :
    replaceGo ('#' :: pt) rep (pre ++ l) 0 = pre ++ replaceGo ('#' :: pt) rep l 0 := by
  induction pre with
  | nil => rfl
  | cons c cs ih =>
    simp only [List.all_cons, Bool.and_eq_true, bne_iff_ne] at h
    have hpre := not_isPrefixOf_of_head_ne '#' pt c (cs ++ l) h.1
    simp [replaceGo, hpre, ih h.2]

theorem replaceGo_skip (pat rep x l : List Char) :
    replaceGo pat rep (x ++ l) x.length = replaceGo pat rep l 0 := by
  induction x with
  | nil => rfl
  | cons c cs ih =>
    simp only [List.cons_append, replaceGo]
    exact ih

theorem replaceGo_head (p : Char) (pt rep l : List Char) :
    replaceGo (p :: pt) rep ((p :: pt) ++ l) 0 = rep ++ replaceGo (p :: pt) rep l 0 := by
  have hpref : (p :: pt).isPrefixOf (p :: (pt ++ l)) = true := by
    have := isPrefixOf_append_self (p :: pt) l
    simpa using this
  rw [List.cons_append]
  simp only [replaceGo]
  rw [if_pos ⟨by simp, hpref⟩]
  have hlen : (p :: pt).length - 1 = pt.length := by simp
  rw [hlen, replaceGo_skip]

theorem value_proxy_notoken (root : ProviderNode) (k : Nat) (s : String)
    (h : scanTokens s = []) :
    value_proxy root (k + 1) (.val (.pstr s)) = .ok s := by
  simp only [value_proxy]
  rw [h]
  rfl

theorem token_toList (name : String) :
    ("##" ++ name ++ "##").toList = '#' :: '#' :: (name.toList ++ '#' :: '#' :: []) := by
  simp [String.toList, String.data_append]

/-- One substitution step of value_proxy on a field holding exactly one
placeholder token surrounded by '#'-free text: if self_reference resolves
the token name to `r`, the field resolves to the surrounding text with the
token text replaced by `r` (Python never re-scans the substituted text). -/
theorem resolveSingleToken (root : ProviderNode) (n : Nat) (name r : String)
    (pre post : List Char)
    (hne : name.toList ≠ [])
    (hn : name.toList.all (fun c => c != '#') = true)
    (hpre : pre.all (fun c => c != '#') = true)
    (hpost : post.all (fun c => c != '#') = true)
    (hsr : ProviderNode.self_reference (value_proxy root n) root name = .ok r) :
    value_proxy root (n + 1)
      (.val (.pstr (String.mk (pre ++ ("##" ++ name ++ "##").toList ++ post)))) =
      .ok (String.mk (pre ++ r.toList ++ post)) := by
  have hscan : scanTokens (String.mk (pre ++ ("##" ++ name ++ "##").toList ++ post)) =
      [name] := by
    show scanGo ((String.mk (pre ++ ("##" ++ name ++ "##").toList ++ post)).toList) .plain = _
    rw [toList_mk, token_toList]
    have hshape : pre ++ ('#' :: '#' :: (name.toList ++ '#' :: '#' :: [])) ++ post =
        pre ++ ('#' :: '#' :: (name.toList ++ '#' :: '#' :: post)) := by
      simp
    rw [hshape, scanGo_app_nohash _ _ hpre, scanGo_token _ _ hne hn,
      scanGo_nohash _ hpost, String.mk_toList]
  have hrepl : pyReplace (String.mk (pre ++ ("##" ++ name ++ "##").toList ++ post))
      ("##" ++ name ++ "##") r = String.mk (pre ++ r.toList ++ post) := by
    have h0 : pyReplace (String.mk (pre ++ ("##" ++ name ++ "##").toList ++ post))
        ("##" ++ name ++ "##") r =
        String.mk (replaceGo (("##" ++ name ++ "##").toList) r.toList
          (pre ++ ("##" ++ name ++ "##").toList ++ post) 0) := rfl
    rw [h0, token_toList]
    have hshape : pre ++ ('#' :: '#' :: (name.toList ++ '#' :: '#' :: [])) ++ post =
        pre ++ (('#' :: '#' :: (name.toList ++ '#' :: '#' :: [])) ++ post) := by
      simp
    rw [hshape, replaceGo_app_nohash _ _ _ _ hpre, replaceGo_head, replaceGo_nohash _ _ _ hpost]
    simp
  simp only [value_proxy]
  rw [hscan]
  simp only [tokenLoop, hsr]
  rw [hrepl]

theorem childLoop_node_ok (vp : PEntry → Except RErr String) (nm k : String) (nd : LeafNode)
    (rest : List (String × PEntry)) (acc : Option String) (r : String)
    (h : LeafNode.self_reference vp nd nm = .ok r) :
    childLoop vp nm ((k, .node nd) :: rest) acc = childLoop vp nm rest (some r) := by
  simp [childLoop, h]

theorem childLoop_node_key (vp : PEntry → Except RErr String) (nm k : String) (nd : LeafNode)
    (rest : List (String × PEntry)) (acc : Option String) (m : String)
    (h : LeafNode.self_reference vp nd nm = .error (.keyError m)) :
    childLoop vp nm ((k, .node nd) :: rest) acc = childLoop vp nm rest acc := by
  simp [childLoop, h]

theorem replaceGo_whole (p : Char) (pt rep : List Char) :
    replaceGo (p :: pt) rep (p :: pt) 0 = rep := by
  have h1 : replaceGo (p :: pt) rep [] 0 = [] := rfl
  have h2 := replaceGo_head p pt rep []
  rw [List.append_nil, h1, List.append_nil] at h2
  exact h2

theorem pyReplace_token_whole (name r : String) :
    pyReplace ("##" ++ name ++ "##") ("##" ++ name ++ "##") r = r := by
  have h0 : pyReplace ("##" ++ name ++ "##") ("##" ++ name ++ "##") r =
      String.mk (replaceGo (("##" ++ name ++ "##").toList) r.toList
        (("##" ++ name ++ "##").toList) 0) := rfl
  rw [h0, token_toList, replaceGo_whole]
  exact String.mk_toList r

theorem c7_sr_name_display (lit : String) (k : Nat)
    (hlit : lit.toList.all (fun c => c != '#') = true) :
    ProviderNode.self_reference (value_proxy (c7tree lit) (k + 1)) (c7tree lit)
      "name_display" = .ok lit := by
  have hv : value_proxy (c7tree lit) (k + 1) (.val (.pstr lit)) = .ok lit :=
    value_proxy_notoken _ _ _ (scanGo_nohash _ hlit)
  have hbody : ProviderNode.self_reference (value_proxy (c7tree lit) (k + 1)) (c7tree lit)
      "name_display" = value_proxy (c7tree lit) (k + 1) (.val (.pstr lit)) := rfl
  rw [hbody, hv]

theorem c7_vp_name_display (lit : String) (k : Nat)
    (hlit : lit.toList.all (fun c => c != '#') = true) :
    value_proxy (c7tree lit) (k + 2) (.val (.pstr "##name_display##")) = .ok lit := by
  have hscan : scanTokens "##name_display##" = ["name_display"] := rfl
  simp only [value_proxy]
  rw [hscan]
  simp only [tokenLoop, c7_sr_name_display lit k hlit]
  have he : ("##name_display##" : String) = "##" ++ "name_display" ++ "##" := rfl
  rw [he, pyReplace_token_whole]

theorem c7_sr_name_short (lit : String) (k : Nat)
    (hlit : lit.toList.all (fun c => c != '#') = true) :
    ProviderNode.self_reference (value_proxy (c7tree lit) (k + 2)) (c7tree lit)
      "name_short" = .ok lit := by
  have hbody : ProviderNode.self_reference (value_proxy (c7tree lit) (k + 2)) (c7tree lit)
      "name_short" = value_proxy (c7tree lit) (k + 2) (.val (.pstr "##name_display##")) := rfl
  rw [hbody, c7_vp_name_display lit k hlit]

/-- C7: a two-step acyclic reference chain resolves transitively: on a tree
whose name_short field holds `##name_display##` and whose name_display field
holds a token-free literal, a field holding `##name_short##` resolves to
that literal — the candidate `##name_display##` is itself fully resolved
against the fixed root before being substituted. -/
theorem C7_theorem :
    ∀ (n : Nat) (lit : String), lit.toList.all (fun c => c != '#') = true →
      value_proxy (c7tree lit) (n + 3) (.val (.pstr "##name_short##")) = .ok lit := by
  intro n lit hlit
  have hscan : scanTokens "##name_short##" = ["name_short"] := rfl
  simp only [value_proxy]
  rw [hscan]
  simp only [tokenLoop, c7_sr_name_short lit n hlit]
  have he : ("##name_short##" : String) = "##" ++ "name_short" ++ "##" := rfl
  rw [he, pyReplace_token_whole]

/-- C7 witness: the chain name_short -> name_display -> "displayed provider"
resolves fully. -/
theorem C7_witness :
    value_proxy (c7tree "displayed provider") 3 (.val (.pstr "##name_short##")) =
      .ok "displayed provider" :=
  C7_theorem 0 "displayed provider" (by decide)

theorem std_sr_full_address (full dom loc : String) (k : Nat)
    (hf : full.toList.all (fun c => c != '#') = true) :
    ProviderNode.self_reference (value_proxy (stdTree full dom loc) (k + 1))
      (stdTree full dom loc) "full_address" = .ok full := by
  have hvp : value_proxy (stdTree full dom loc) (k + 1) (.val (.pstr full)) = .ok full :=
    value_proxy_notoken _ _ _ (scanGo_nohash _ hf)
  have hin : LeafNode.self_reference (value_proxy (stdTree full dom loc) (k + 1))
      inServerDefault "full_address" = .error (.keyError "full_address") := rfl
  have hout : LeafNode.self_reference (value_proxy (stdTree full dom loc) (k + 1))
      outServerDefault "full_address" = .error (.keyError "full_address") := rfl
  have haddr : LeafNode.self_reference (value_proxy (stdTree full dom loc) (k + 1))
      (EmailAddress.toNode { full_address := full, domain := dom, local_part := loc })
      "full_address" = value_proxy (stdTree full dom loc) (k + 1) (.val (.pstr full)) := rfl
  have hchild : childLoop (value_proxy (stdTree full dom loc) (k + 1)) "full_address"
      (stdTree full dom loc).dict none = .ok (some full) := by
    show childLoop (value_proxy (stdTree full dom loc) (k + 1)) "full_address"
      [("in_server", .node inServerDefault), ("out_server", .node outServerDefault),
       ("address", .node (EmailAddress.toNode
         { full_address := full, domain := dom, local_part := loc }))] none = .ok (some full)
    rw [childLoop_node_key _ _ _ _ _ _ _ hin, childLoop_node_key _ _ _ _ _ _ _ hout,
      childLoop_node_ok _ _ _ _ _ _ _ (haddr.trans hvp)]
    rfl
  simp only [ProviderNode.self_reference]
  rw [hchild]
  show value_proxy (stdTree full dom loc) (k + 1) (.val (.pstr full)) = .ok full
  exact hvp

theorem std_vp_fa_token (full dom loc : String) (k : Nat)
    (hf : full.toList.all (fun c => c != '#') = true) :
    value_proxy (stdTree full dom loc) (k + 2) (.val (.pstr "##full_address##")) = .ok full := by
  have hscan : scanTokens "##full_address##" = ["full_address"] := rfl
  simp only [value_proxy]
  rw [hscan]
  simp only [tokenLoop, std_sr_full_address full dom loc k hf]
  have he : ("##full_address##" : String) = "##" ++ "full_address" ++ "##" := rfl
  rw [he, pyReplace_token_whole]

theorem std_sr_emailaddress (full dom loc : String) (k : Nat)
    (hf : full.toList.all (fun c => c != '#') = true) :
    ProviderNode.self_reference (value_proxy (stdTree full dom loc) (k + 2))
      (stdTree full dom loc) "EMAILADDRESS" = .ok full := by
  have hvp2 : value_proxy (stdTree full dom loc) (k + 2)
      (.val (.pstr "##full_address##")) = .ok full := std_vp_fa_token full dom loc k hf
  have hin : LeafNode.self_reference (value_proxy (stdTree full dom loc) (k + 2))
      inServerDefault "EMAILADDRESS" =
      value_proxy (stdTree full dom loc) (k + 2) (.val (.pstr "##full_address##")) := rfl
  have hout : LeafNode.self_reference (value_proxy (stdTree full dom loc) (k + 2))
      outServerDefault "EMAILADDRESS" =
      value_proxy (stdTree full dom loc) (k + 2) (.val (.pstr "##full_address##")) := rfl
  have haddr : LeafNode.self_reference (value_proxy (stdTree full dom loc) (k + 2))
      (EmailAddress.toNode { full_address := full, domain := dom, local_part := loc })
      "EMAILADDRESS" =
      value_proxy (stdTree full dom loc) (k + 2) (.val (.pstr "##full_address##")) := rfl
  have hchild : childLoop (value_proxy (stdTree full dom loc) (k + 2)) "EMAILADDRESS"
      (stdTree full dom loc).dict none = .ok (some full) := by
    show childLoop (value_proxy (stdTree full dom loc) (k + 2)) "EMAILADDRESS"
      [("in_server", .node inServerDefault), ("out_server", .node outServerDefault),
       ("address", .node (EmailAddress.toNode
         { full_address := full, domain := dom, local_part := loc }))] none = .ok (some full)
    rw [childLoop_node_ok _ _ _ _ _ _ _ (hin.trans hvp2),
      childLoop_node_ok _ _ _ _ _ _ _ (hout.trans hvp2),
      childLoop_node_ok _ _ _ _ _ _ _ (haddr.trans hvp2)]
    rfl
  simp only [ProviderNode.self_reference]
  rw [hchild]
  show value_proxy (stdTree full dom loc) (k + 2) (.val (.pstr "##full_address##")) = .ok full
  exact hvp2

/-- C6: on a default-shaped tree whose identity fields are token-free, a
string field containing `##EMAILADDRESS##` surrounded by '#'-free text
resolves to that text with the token replaced by the identity's full
address: the static table maps EMAILADDRESS to the placeholder
`##full_address##`, which in turn resolves against the tree's EmailAddress
node. -/
theorem C6_theorem :
    ∀ (n : Nat) (full dom loc : String) (pre post : List Char),
      full.toList.all (fun c => c != '#') = true →
      pre.all (fun c => c != '#') = true →
      post.all (fun c => c != '#') = true →
      value_proxy (stdTree full dom loc) (n + 3)
        (.val (.pstr (String.mk (pre ++ ("##" ++ "EMAILADDRESS" ++ "##").toList ++ post)))) =
        .ok (String.mk (pre ++ full.toList ++ post)) := by
  intro n full dom loc pre post hf hpre hpost
  exact resolveSingleToken (stdTree full dom loc) (n + 2) "EMAILADDRESS" full pre post
    (by decide) (by decide) hpre hpost (std_sr_emailaddress full dom loc n hf)

/-- C6 witness: "user is ##EMAILADDRESS##." resolves for alice@example.com. -/
theorem C6_witness :
    value_proxy (stdTree "alice@example.com" "example.com" "alice") 3
      (.val (.pstr (String.mk ("user is ".toList ++
        ("##" ++ "EMAILADDRESS" ++ "##").toList ++ ".".toList)))) =
      .ok (String.mk ("user is ".toList ++ "alice@example.com".toList ++ ".".toList)) :=
  C6_theorem 0 "alice@example.com" "example.com" "alice" "user is ".toList ".".toList
    (by decide) (by decide) (by decide)

/-- C8 counterexample: resolve_references can return WITHOUT error while a
string field of the result still contains a `##NAME##` token. On c8tree the
id field `##EMAILADDRESS##X##` resolves by substituting the identity's full
address, which is the literal `##` (itself token-free, so its own resolution
succeeds unchanged); the substituted text is never re-scanned, and the
resulting id value `##X##` contains the unresolved-looking token `X`. -/
theorem C8_counterexample :
    resultHasToken (ProviderNode.resolve_references 12 c8tree) = true
    ∧ isOkE (ProviderNode.resolve_references 12 c8tree) = true
    ∧ (ProviderNode.resolve_references 12 c8tree).toOption.map
        (fun t => alookup t.dict "id") = some (some (.val (.pstr "##X##")))
    ∧ scanTokens "##X##" = ["X"] := by
  exact ⟨rfl, rfl, rfl, rfl⟩

theorem exbind_ok {α β γ : Type} (x : Except α β) (f : β → Except α γ) (c : γ)
    (h : (x >>= f) = .ok c) : ∃ b, x = .ok b ∧ f b = .ok c := by
  cases x with
  | error e =>
    have hred : (Except.error e >>= f : Except α γ) = Except.error e := rfl
    rw [hred] at h
    cases h
  | ok b =>
    have hred : (Except.ok b >>= f : Except α γ) = f b := rfl
    rw [hred] at h
    exact ⟨b, rfl, h⟩

theorem get?_lt_length {α : Type} (l : List α) (i : Nat) (a : α)
    (h : l.get? i = some a) : i < l.length :=
  (List.get?_eq_some.mp h).1

theorem okinj {β : Type} {x y : β} (h : (Except.ok x : Except RErr β) = .ok y) : x = y := by
  injection h

theorem get?_set_self {α : Type} (l : List α) (i : Nat) (a b : α) (h : l.get? i = some b) :
    (l.set i a).get? i = some a := by
  simp [List.get?_set_eq, get?_lt_length _ _ _ h]

theorem updateProvFieldAt_other (p : ProviderNode) (i : Nat) (s : String) (j : Nat)
    (hne : j ≠ i) : (updateProvFieldAt p i s).dict.get? j = p.dict.get? j := by
  unfold updateProvFieldAt
  rcases hp : p.dict.get? i with _ | ⟨k, e⟩
  · rfl
  · exact List.get?_set_ne _ _ (Ne.symm hne)

theorem updateProvFieldAt_self (p : ProviderNode) (i : Nat) (k : String) (e : PEntry)
    (s : String) (hp : p.dict.get? i = some (k, e)) :
    (updateProvFieldAt p i s).dict.get? i = some (k, .val (.pstr s)) := by
  unfold updateProvFieldAt
  rw [hp]
  exact get?_set_self _ _ _ _ hp

theorem updateLeafFieldAt_other (p : ProviderNode) (ci fi : Nat) (s : String) (j : Nat)
    (hne : j ≠ ci) : (updateLeafFieldAt p ci fi s).dict.get? j = p.dict.get? j := by
  unfold updateLeafFieldAt
  split
  · split
    · exact List.get?_set_ne _ _ (Ne.symm hne)
    · rfl
  · rfl

theorem updateLeafFieldAt_self (p : ProviderNode) (ci fi : Nat) (s : String) (k : String)
    (nd : LeafNode) (fk : String) (w : PyVal)
    (hci : p.dict.get? ci = some (k, .node nd)) (hfi : nd.dict.get? fi = some (fk, w)) :
    (updateLeafFieldAt p ci fi s).dict.get? ci =
      some (k, .node ⟨nd.pfx, nd.dict.set fi (fk, .pstr s)⟩) := by
  unfold updateLeafFieldAt
  split
  · rename_i k1 nd1 heq
    rw [hci] at heq
    simp only [Option.some.injEq, Prod.mk.injEq, PEntry.node.injEq] at heq
    obtain ⟨hk1, hnd1⟩ := heq
    subst hk1
    subst hnd1
    split
    · rename_i fk1 w1 heq2
      rw [hfi] at heq2
      simp only [Option.some.injEq, Prod.mk.injEq] at heq2
      obtain ⟨hfk1, hw1⟩ := heq2
      subst hfk1
      exact get?_set_self _ _ _ _ hci
    · rename_i heq2
      rw [hfi] at heq2
      cases heq2
  · rename_i hne2
    exact absurd hci (hne2 k nd)

theorem resolveProvField_sum (fuel : Nat) (p p' : ProviderNode) (i : Nat)
    (h : resolveProvField fuel p i = .ok p') :
    p' = p ∨ ∃ k s r, p.dict.get? i = some (k, .val (.pstr s)) ∧ k ≠ "prefix" ∧
      value_proxy p fuel (.val (.pstr s)) = .ok r ∧ p' = updateProvFieldAt p i r := by
  unfold resolveProvField at h
  rcases hp : p.dict.get? i with _ | ⟨k, e⟩
  · simp only [hp] at h
    exact Or.inl (okinj h).symm
  · rcases e with v | nd
    · rcases v with s | z | ls
      · simp only [hp] at h
        by_cases hk : k = "prefix"
        · rw [if_pos hk] at h
          exact Or.inl (okinj h).symm
        · rw [if_neg hk] at h
          rcases hv : value_proxy p fuel (.val (.pstr s)) with e1 | r
          · rw [hv] at h
            cases h
          · rw [hv] at h
            exact Or.inr ⟨k, s, r, rfl, hk, hv, (okinj h).symm⟩
      · simp only [hp] at h
        exact Or.inl (okinj h).symm
      · simp only [hp] at h
        exact Or.inl (okinj h).symm
    · simp only [hp] at h
      exact Or.inl (okinj h).symm

theorem resolveProvField_ok_other (fuel : Nat) (p p' : ProviderNode) (i j : Nat)
    (h : resolveProvField fuel p i = .ok p') (hne : j ≠ i) :
    p'.dict.get? j = p.dict.get? j := by
  rcases resolveProvField_sum fuel p p' i h with rfl | ⟨k, s, r, hp, hk, hv, rfl⟩
  · rfl
  · exact updateProvFieldAt_other p i r j hne

theorem resolveProvField_preserves_node (fuel : Nat) (p p' : ProviderNode) (i j : Nat)
    (k : String) (nd : LeafNode) (h : resolveProvField fuel p i = .ok p')
    (hnode : p.dict.get? j = some (k, .node nd)) :
    p'.dict.get? j = some (k, .node nd) := by
  rcases resolveProvField_sum fuel p p' i h with rfl | ⟨k1, s, r, hp, hk, hv, rfl⟩
  · exact hnode
  · by_cases hij : j = i
    · subst hij
      rw [hnode] at hp
      cases hp
    · rw [updateProvFieldAt_other p i r j hij]
      exact hnode

theorem resolveProvField_process (fuel : Nat) (p p' : ProviderNode) (i : Nat) (k : String)
    (s : String) (hp : p.dict.get? i = some (k, .val (.pstr s))) (hk : k ≠ "prefix")
    (h : resolveProvField fuel p i = .ok p') :
    ∃ r, value_proxy p fuel (.val (.pstr s)) = .ok r ∧ p' = updateProvFieldAt p i r := by
  unfold resolveProvField at h
  simp only [hp] at h
  rw [if_neg hk] at h
  rcases hv : value_proxy p fuel (.val (.pstr s)) with e1 | r
  · rw [hv] at h
    cases h
  · rw [hv] at h
    exact ⟨r, rfl, (okinj h).symm⟩

theorem resolveLeafField_sum (fuel ci : Nat) (p p' : ProviderNode) (fi : Nat)
    (h : resolveLeafField fuel ci p fi = .ok p') :
    p' = p ∨ ∃ k nd fk s r, p.dict.get? ci = some (k, .node nd) ∧
      nd.dict.get? fi = some (fk, .pstr s) ∧ fk ≠ "prefix" ∧
      value_proxy p fuel (.val (.pstr s)) = .ok r ∧ p' = updateLeafFieldAt p ci fi r := by
  unfold resolveLeafField at h
  split at h
  · rename_i k nd heq
    split at h
    · rename_i fk s heq2
      split at h
      · exact Or.inl (okinj h).symm
      · rename_i hfk
        split at h
        · rename_i r hv
          exact Or.inr ⟨k, nd, fk, s, r, heq, heq2, hfk, hv, (okinj h).symm⟩
        · cases h
    · exact Or.inl (okinj h).symm
  · exact Or.inl (okinj h).symm

theorem resolveLeafField_ok_other (fuel ci : Nat) (p p' : ProviderNode) (fi j : Nat)
    (h : resolveLeafField fuel ci p fi = .ok p') (hne : j ≠ ci) :
    p'.dict.get? j = p.dict.get? j := by
  rcases resolveLeafField_sum fuel ci p p' fi h with rfl | ⟨k, nd, fk, s, r, hci, hfi, hfk, hv, rfl⟩
  · rfl
  · exact updateLeafFieldAt_other p ci fi r j hne

theorem resolveLeafField_evolution (fuel ci : Nat) (p p' : ProviderNode) (fi : Nat)
    (k : String) (nd : LeafNode) (h : resolveLeafField fuel ci p fi = .ok p')
    (hci : p.dict.get? ci = some (k, .node nd)) :
    ∃ nd', p'.dict.get? ci = some (k, .node nd') ∧ nd'.pfx = nd.pfx ∧
      ∀ j, j ≠ fi → nd'.dict.get? j = nd.dict.get? j := by
  rcases resolveLeafField_sum fuel ci p p' fi h with rfl | ⟨k1, nd1, fk, s, r, hci1, hfi1, hfk, hv, rfl⟩
  · exact ⟨nd, hci, rfl, fun j _ => rfl⟩
  · rw [hci] at hci1
    simp only [Option.some.injEq, Prod.mk.injEq, PEntry.node.injEq] at hci1
    obtain ⟨hk1, hnd1⟩ := hci1
    subst hk1
    subst hnd1
    refine ⟨⟨nd.pfx, nd.dict.set fi (fk, .pstr r)⟩,
      updateLeafFieldAt_self p ci fi r k nd fk (.pstr s) hci hfi1, rfl, ?_⟩
    intro j hj
    exact List.get?_set_ne _ _ (Ne.symm hj)

theorem resolveLeafField_process (fuel ci : Nat) (p p' : ProviderNode) (fi : Nat)
    (k : String) (nd : LeafNode) (fk s : String)
    (hci : p.dict.get? ci = some (k, .node nd))
    (hfi : nd.dict.get? fi = some (fk, .pstr s)) (hfk : fk ≠ "prefix")
    (h : resolveLeafField fuel ci p fi = .ok p') :
    ∃ r, value_proxy p fuel (.val (.pstr s)) = .ok r ∧ p' = updateLeafFieldAt p ci fi r := by
  unfold resolveLeafField at h
  simp only [hci] at h
  simp only [hfi] at h
  rw [if_neg hfk] at h
  rcases hv : value_proxy p fuel (.val (.pstr s)) with e | r
  · rw [hv] at h
    cases h
  · rw [hv] at h
    exact ⟨r, rfl, (okinj h).symm⟩

theorem leafFold_other_entry (fuel ci : Nat) :
    ∀ (fis : List Nat) (p q : ProviderNode),
      fis.foldlM (resolveLeafField fuel ci) p = .ok q →
      ∀ j, j ≠ ci → q.dict.get? j = p.dict.get? j := by
  intro fis
  induction fis with
  | nil =>
    intro p q h j hne
    rw [List.foldlM_nil] at h
    rw [← okinj h]
  | cons fj fis' ih =>
    intro p q h j hne
    rw [List.foldlM_cons] at h
    obtain ⟨p1, h1, hrest⟩ := exbind_ok _ _ _ h
    rw [ih p1 q hrest j hne, resolveLeafField_ok_other fuel ci p p1 fj j h1 hne]

/-- Invariant of one leaf child's field loop: a field index outside the
processed list keeps its value; a string field (other than "prefix") at a
processed index ends up holding the value_proxy resolution of its original
value against some intermediate tree state of the pass. -/
theorem leafFold_spec (fuel ci : Nat) :
    ∀ (fis : List Nat) (p q : ProviderNode),
      fis.foldlM (resolveLeafField fuel ci) p = .ok q → fis.Nodup →
      (∀ j, j ∉ fis → ∀ k nd, p.dict.get? ci = some (k, .node nd) →
        ∃ nd', q.dict.get? ci = some (k, .node nd') ∧ nd'.pfx = nd.pfx ∧
          nd'.dict.get? j = nd.dict.get? j)
      ∧ (∀ j, j ∈ fis → ∀ k nd fk s, p.dict.get? ci = some (k, .node nd) →
        nd.dict.get? j = some (fk, .pstr s) → fk ≠ "prefix" →
        ∃ root' r, value_proxy root' fuel (.val (.pstr s)) = .ok r ∧
          ∃ nd', q.dict.get? ci = some (k, .node nd') ∧
            nd'.dict.get? j = some (fk, .pstr r)) := by
  intro fis
  induction fis with
  | nil =>
    intro p q h _
    rw [List.foldlM_nil] at h
    obtain rfl : p = q := okinj h
    constructor
    · intro j _ k nd hci
      exact ⟨nd, hci, rfl, rfl⟩
    · intro j hj
      cases hj
  | cons fj fis' ih =>
    intro p q h hnd
    rw [List.foldlM_cons] at h
    obtain ⟨p1, h1, hrest⟩ := exbind_ok _ _ _ h
    simp only [List.nodup_cons] at hnd
    obtain ⟨hfj, hnd'⟩ := hnd
    constructor
    · intro j hj k nd hci
      simp only [List.mem_cons] at hj
      push_neg at hj
      obtain ⟨nd1, hci1, hpfx1, hpre1⟩ :=
        resolveLeafField_evolution fuel ci p p1 fj k nd h1 hci
      obtain ⟨nd', hq, hpfx2, hpre2⟩ := (ih p1 q hrest hnd').1 j hj.2 k nd1 hci1
      exact ⟨nd', hq, hpfx2.trans hpfx1, (hpre2.trans (hpre1 j hj.1))⟩
    · intro j hj k nd fk s hci hfi hfk
      simp only [List.mem_cons] at hj
      rcases hj with rfl | hj
      · obtain ⟨r, hv, hp1⟩ :=
          resolveLeafField_process fuel ci p p1 j k nd fk s hci hfi hfk h1
        rw [hp1] at hrest
        have hp1ci : (updateLeafFieldAt p ci j r).dict.get? ci =
            some (k, .node ⟨nd.pfx, nd.dict.set j (fk, .pstr r)⟩) :=
          updateLeafFieldAt_self p ci j r k nd fk (.pstr s) hci hfi
        obtain ⟨nd', hq, _, hpre⟩ :=
          (ih (updateLeafFieldAt p ci j r) q hrest hnd').1 j hfj k _ hp1ci
        refine ⟨p, r, hv, nd', hq, ?_⟩
        rw [hpre]
        exact get?_set_self _ _ _ _ hfi
      · obtain ⟨nd1, hci1, _, hpre1⟩ :=
          resolveLeafField_evolution fuel ci p p1 fj k nd h1 hci
        have hfi1 : nd1.dict.get? j = some (fk, .pstr s) := by
          rw [hpre1 j (by intro hc; subst hc; exact hfj hj)]
          exact hfi
        exact (ih p1 q hrest hnd').2 j hj k nd1 fk s hci1 hfi1 hfk

theorem resolveChild_node (fuel : Nat) (p p' : ProviderNode) (ci : Nat) (k : String)
    (nd : LeafNode) (hci : p.dict.get? ci = some (k, .node nd))
    (h : resolveChild fuel p ci = .ok p') :
    (List.range nd.dict.length).foldlM (resolveLeafField fuel ci) p = .ok p' := by
  unfold resolveChild at h
  simp only [hci] at h
  exact h

theorem resolveChild_ok_other (fuel : Nat) (p p' : ProviderNode) (ci j : Nat)
    (h : resolveChild fuel p ci = .ok p') (hne : j ≠ ci) :
    p'.dict.get? j = p.dict.get? j := by
  unfold resolveChild at h
  split at h
  · rename_i k nd heq
    exact leafFold_other_entry fuel ci _ p p' h j hne
  · rw [← okinj h]

theorem resolveChild_preserves_val (fuel : Nat) (p p' : ProviderNode) (ci i : Nat)
    (k : String) (v : PyVal) (h : resolveChild fuel p ci = .ok p')
    (hval : p.dict.get? i = some (k, .val v)) :
    p'.dict.get? i = some (k, .val v) := by
  by_cases hic : i = ci
  · subst hic
    unfold resolveChild at h
    rw [hval] at h
    rw [← okinj h]
    exact hval
  · rw [resolveChild_ok_other fuel p p' ci i h hic]
    exact hval

theorem childFold_val (fuel : Nat) :
    ∀ (cis : List Nat) (p q : ProviderNode),
      cis.foldlM (resolveChild fuel) p = .ok q →
      ∀ i k v, p.dict.get? i = some (k, .val v) → q.dict.get? i = some (k, .val v) := by
  intro cis
  induction cis with
  | nil =>
    intro p q h i k v hval
    rw [List.foldlM_nil] at h
    rw [← okinj h]
    exact hval
  | cons cj cis' ih =>
    intro p q h i k v hval
    rw [List.foldlM_cons] at h
    obtain ⟨p1, h1, hrest⟩ := exbind_ok _ _ _ h
    exact ih p1 q hrest i k v (resolveChild_preserves_val fuel p p1 cj i k v h1 hval)

/-- Invariant of the children pass: an untouched provider index keeps its
entry, and every string field (other than "prefix") of a child node at a
processed index ends up holding the value_proxy resolution of its original
value against some intermediate tree state of the pass. -/
theorem childFold_spec (fuel : Nat) :
    ∀ (cis : List Nat) (p q : ProviderNode),
      cis.foldlM (resolveChild fuel) p = .ok q → cis.Nodup →
      (∀ i, i ∉ cis → q.dict.get? i = p.dict.get? i)
      ∧ (∀ i, i ∈ cis → ∀ j k nd fk s, p.dict.get? i = some (k, .node nd) →
        nd.dict.get? j = some (fk, .pstr s) → fk ≠ "prefix" →
        ∃ root' r, value_proxy root' fuel (.val (.pstr s)) = .ok r ∧
          ∃ nd', q.dict.get? i = some (k, .node nd') ∧
            nd'.dict.get? j = some (fk, .pstr r)) := by
  intro cis
  induction cis with
  | nil =>
    intro p q h _
    rw [List.foldlM_nil] at h
    obtain rfl : p = q := okinj h
    constructor
    · intro i _
      rfl
    · intro i hi
      cases hi
  | cons cj cis' ih =>
    intro p q h hnd
    rw [List.foldlM_cons] at h
    obtain ⟨p1, h1, hrest⟩ := exbind_ok _ _ _ h
    simp only [List.nodup_cons] at hnd
    obtain ⟨hcj, hnd'⟩ := hnd
    constructor
    · intro i hi
      simp only [List.mem_cons] at hi
      push_neg at hi
      rw [(ih p1 q hrest hnd').1 i hi.2, resolveChild_ok_other fuel p p1 cj i h1 hi.1]
    · intro i hi j k nd fk s hci hfi hfk
      simp only [List.mem_cons] at hi
      rcases hi with rfl | hi
      · have hfold := resolveChild_node fuel p p1 i k nd hci h1
        have hjmem : j ∈ List.range nd.dict.length :=
          List.mem_range.mpr (get?_lt_length _ _ _ hfi)
        obtain ⟨root', r, hv, nd1, hp1i, hfj1⟩ :=
          (leafFold_spec fuel i (List.range nd.dict.length) p p1 hfold
            (List.nodup_range _)).2 j hjmem k nd fk s hci hfi hfk
        have hq : q.dict.get? i = p1.dict.get? i := (ih p1 q hrest hnd').1 i hcj
        exact ⟨root', r, hv, nd1, hq.trans hp1i, hfj1⟩
      · have hp1i : p1.dict.get? i = p.dict.get? i :=
          resolveChild_ok_other fuel p p1 cj i h1 (by intro hc; subst hc; exact hcj hi)
        exact (ih p1 q hrest hnd').2 i hi j k nd fk s (hp1i.trans hci) hfi hfk

/-- Invariant of the provider-field pass: an untouched index keeps its
entry, node entries are never touched, and every provider-level string
field (other than "prefix") at a processed index ends up holding the
value_proxy resolution of its original value against some intermediate
tree state of the pass. -/
theorem provFold_spec (fuel : Nat) :
    ∀ (is : List Nat) (p q : ProviderNode),
      is.foldlM (resolveProvField fuel) p = .ok q → is.Nodup →
      (∀ i, i ∉ is → q.dict.get? i = p.dict.get? i)
      ∧ (∀ i, i ∈ is → ∀ k s, p.dict.get? i = some (k, .val (.pstr s)) → k ≠ "prefix" →
        ∃ root' r, value_proxy root' fuel (.val (.pstr s)) = .ok r ∧
          q.dict.get? i = some (k, .val (.pstr r)))
      ∧ (∀ i k nd, p.dict.get? i = some (k, .node nd) →
        q.dict.get? i = some (k, .node nd)) := by
  intro is
  induction is with
  | nil =>
    intro p q h _
    rw [List.foldlM_nil] at h
    obtain rfl : p = q := okinj h
    refine ⟨fun i _ => rfl, fun i hi => ?_, fun i k nd hn => hn⟩
    cases hi
  | cons ij is' ih =>
    intro p q h hnd
    rw [List.foldlM_cons] at h
    obtain ⟨p1, h1, hrest⟩ := exbind_ok _ _ _ h
    simp only [List.nodup_cons] at hnd
    obtain ⟨hij, hnd'⟩ := hnd
    refine ⟨?_, ?_, ?_⟩
    · intro i hi
      simp only [List.mem_cons] at hi
      push_neg at hi
      rw [(ih p1 q hrest hnd').1 i hi.2, resolveProvField_ok_other fuel p p1 ij i h1 hi.1]
    · intro i hi k s hp hk
      simp only [List.mem_cons] at hi
      rcases hi with rfl | hi
      · obtain ⟨r, hv, hp1⟩ := resolveProvField_process fuel p p1 i k s hp hk h1
        rw [hp1] at hrest
        have hup : (updateProvFieldAt p i r).dict.get? i = some (k, .val (.pstr r)) :=
          updateProvFieldAt_self p i k _ r hp
        have hq : q.dict.get? i = (updateProvFieldAt p i r).dict.get? i :=
          (ih (updateProvFieldAt p i r) q hrest hnd').1 i hij
        exact ⟨p, r, hv, hq.trans hup⟩
      · have hp1i : p1.dict.get? i = p.dict.get? i :=
          resolveProvField_ok_other fuel p p1 ij i h1 (by intro hc; subst hc; exact hij hi)
        exact (ih p1 q hrest hnd').2.1 i hi k s (hp1i.trans hp) hk
    · intro i k nd hn
      exact (ih p1 q hrest hnd').2.2 i k nd
        (resolveProvField_preserves_node fuel p p1 ij i k nd h1 hn)

/-- Whole-pass guarantee: when resolve_references returns without error,
every string field of the result — provider-level and inside each child —
is the value_proxy resolution of that field's original value against some
intermediate state of the pass (each field location is written at most
once, by its own step). -/
theorem resolve_references_ok_fields (fuel : Nat) (p q : ProviderNode)
    (h : ProviderNode.resolve_references fuel p = .ok q) :
    (∀ i k s, p.dict.get? i = some (k, .val (.pstr s)) → k ≠ "prefix" →
      ∃ root' r, value_proxy root' fuel (.val (.pstr s)) = .ok r ∧
        q.dict.get? i = some (k, .val (.pstr r)))
    ∧ (∀ i j k nd fk s, p.dict.get? i = some (k, .node nd) →
      nd.dict.get? j = some (fk, .pstr s) → fk ≠ "prefix" →
      ∃ root' r, value_proxy root' fuel (.val (.pstr s)) = .ok r ∧
        ∃ nd', q.dict.get? i = some (k, .node nd') ∧
          nd'.dict.get? j = some (fk, .pstr r)) := by
  unfold ProviderNode.resolve_references at h
  obtain ⟨p1, h1, h2⟩ := exbind_ok _ _ _ h
  constructor
  · intro i k s hp hk
    have hp1 : p1.dict.get? i = some (k, .val (.pstr s)) :=
      childFold_val fuel (List.range p.dict.length) p p1 h1 i k (.pstr s) hp
    have hmem : i ∈ List.range p1.dict.length :=
      List.mem_range.mpr (get?_lt_length _ _ _ hp1)
    exact (provFold_spec fuel (List.range p1.dict.length) p1 q h2
      (List.nodup_range _)).2.1 i hmem k s hp1 hk
  · intro i j k nd fk s hp hfi hfk
    have hmem : i ∈ List.range p.dict.length :=
      List.mem_range.mpr (get?_lt_length _ _ _ hp)
    obtain ⟨root', r, hv, nd', hp1, hfj⟩ :=
      (childFold_spec fuel (List.range p.dict.length) p p1 h1
        (List.nodup_range _)).2 i hmem j k nd fk s hp hfi hfk
    have hq : q.dict.get? i = some (k, .node nd') :=
      (provFold_spec fuel (List.range p1.dict.length) p1 q h2
        (List.nodup_range _)).2.2 i k nd' hp1
    exact ⟨root', r, hv, nd', hq, hfj⟩

theorem tokenLoop_ok_shape (sr : String → Except RErr String) :
    ∀ (ts : List String) (cur r : String), tokenLoop sr ts cur = .ok r →
      ∃ repls : List String, repls.length = ts.length
        ∧ (∀ pr ∈ List.zip ts repls, sr pr.1 = .ok pr.2)
        ∧ (List.zip ts repls).foldl
            (fun c pr => pyReplace c ("##" ++ pr.1 ++ "##") pr.2) cur = r := by
  intro ts
  induction ts with
  | nil =>
    intro cur r h
    refine ⟨[], rfl, ?_, okinj h⟩
    intro pr hpr
    cases hpr
  | cons t ts' ih =>
    intro cur r h
    rcases hsr : sr t with e | repl
    · simp only [tokenLoop, hsr] at h
      cases h
    · simp only [tokenLoop, hsr] at h
      obtain ⟨repls', hlen, hall, hfold⟩ := ih (pyReplace cur ("##" ++ t ++ "##") repl) r h
      refine ⟨repl :: repls', by simp [hlen], ?_, ?_⟩
      · intro pr hpr
        rw [List.zip_cons_cons] at hpr
        rcases List.mem_cons.mp hpr with rfl | hmem
        · exact hsr
        · exact hall pr hmem
      · rw [List.zip_cons_cons, List.foldl_cons]
        exact hfold

/-- Per-field guarantee: a successful value_proxy run matched EVERY token
scanned in the original string and produced exactly the left-to-right
replacement of each token text by its fully resolved value. -/
theorem value_proxy_ok_shape (root : ProviderNode) (n : Nat) (s r : String)
    (h : value_proxy root (n + 1) (.val (.pstr s)) = .ok r) :
    ∃ repls : List String, repls.length = (scanTokens s).length
      ∧ (∀ pr ∈ List.zip (scanTokens s) repls,
          ProviderNode.self_reference (value_proxy root n) root pr.1 = .ok pr.2)
      ∧ (List.zip (scanTokens s) repls).foldl
          (fun cur pr => pyReplace cur ("##" ++ pr.1 ++ "##") pr.2) s = r := by
  simp only [value_proxy] at h
  exact tokenLoop_ok_shape _ (scanTokens s) s r h

/-- A name matched by no source: the children produced no candidate, the
static table misses, and the (character-stripped) local lookup misses.
The lookup then raises KeyError carrying exactly that name. -/
theorem self_reference_unmatched (vp : PEntry → Except RErr String) (root : ProviderNode)
    (name : String)
    (hchild : childLoop vp name root.dict none = .ok none)
    (hstatic : alookup static_references name = none)
    (hlocal : alookup root.dict (pyStrip name root.pfx) = none) :
    ProviderNode.self_reference vp root name = .error (.keyError name) := by
  simp only [ProviderNode.self_reference, hchild, hstatic, hlocal, Option.map_none']

/-- A failed token lookup aborts the field's resolution with that very
error: no partially substituted string is produced. -/
theorem value_proxy_token_error (root : ProviderNode) (n : Nat) (s nm : String)
    (rest : List String) (e : RErr) (hscan : scanTokens s = nm :: rest)
    (hsr : ProviderNode.self_reference (value_proxy root n) root nm = .error e) :
    value_proxy root (n + 1) (.val (.pstr s)) = .error e := by
  simp only [value_proxy]
  rw [hscan]
  simp only [tokenLoop, hsr]

/-- C8 (amended): (a) whole-pass guarantee — if resolve_references returns
without error, every string field of the resulting tree (provider-level and
inside each child) is the value_proxy resolution of its pre-resolution
value against the tree state current when the field was processed; (b) a
successful per-field resolution matched EVERY placeholder token scanned in
the field's original value and substituted each by its fully resolved
value, left to right; (c) a placeholder matched by no source (no child
candidate, no static entry, no local field) raises KeyError naming exactly
that token; (d) such an error aborts the field's resolution unchanged — no
partially substituted string is surfaced; (e) it also aborts the whole
pass, so no resolved tree is returned to the caller (concretely: a tree
whose id field holds the unmatched `##nosuch##`); (f) because substituted
text is never re-scanned, the result is guaranteed token-free only when the
replacement text introduces no '#' characters — for one placeholder in
'#'-free surroundings resolving to a '#'-free value, the resolved field is
the surroundings with the token replaced, and it contains no token. -/
theorem C8_theorem :
    (∀ (fuel : Nat) (p q : ProviderNode), ProviderNode.resolve_references fuel p = .ok q →
      (∀ i k s, p.dict.get? i = some (k, .val (.pstr s)) → k ≠ "prefix" →
        ∃ root' r, value_proxy root' fuel (.val (.pstr s)) = .ok r ∧
          q.dict.get? i = some (k, .val (.pstr r)))
      ∧ (∀ i j k nd fk s, p.dict.get? i = some (k, .node nd) →
        nd.dict.get? j = some (fk, .pstr s) → fk ≠ "prefix" →
        ∃ root' r, value_proxy root' fuel (.val (.pstr s)) = .ok r ∧
          ∃ nd', q.dict.get? i = some (k, .node nd') ∧
            nd'.dict.get? j = some (fk, .pstr r)))
    ∧ (∀ (root : ProviderNode) (n : Nat) (s r : String),
      value_proxy root (n + 1) (.val (.pstr s)) = .ok r →
      ∃ repls : List String, repls.length = (scanTokens s).length
        ∧ (∀ pr ∈ List.zip (scanTokens s) repls,
            ProviderNode.self_reference (value_proxy root n) root pr.1 = .ok pr.2)
        ∧ (List.zip (scanTokens s) repls).foldl
            (fun cur pr => pyReplace cur ("##" ++ pr.1 ++ "##") pr.2) s = r)
    ∧ (∀ (vp : PEntry → Except RErr String) (root : ProviderNode) (name : String),
      childLoop vp name root.dict none = .ok none →
      alookup static_references name = none →
      alookup root.dict (pyStrip name root.pfx) = none →
      ProviderNode.self_reference vp root name = .error (.keyError name))
    ∧ (∀ (root : ProviderNode) (n : Nat) (s nm : String) (rest : List String) (e : RErr),
      scanTokens s = nm :: rest →
      ProviderNode.self_reference (value_proxy root n) root nm = .error e →
      value_proxy root (n + 1) (.val (.pstr s)) = .error e)
    ∧ ProviderNode.resolve_references 12 c8failTree = .error (.keyError "nosuch")
    ∧ (∀ (root : ProviderNode) (n : Nat) (name r : String) (pre post : List Char),
      name.toList ≠ [] → name.toList.all (fun c => c != '#') = true →
      pre.all (fun c => c != '#') = true → post.all (fun c => c != '#') = true →
      r.toList.all (fun c => c != '#') = true →
      ProviderNode.self_reference (value_proxy root n) root name = .ok r →
      value_proxy root (n + 1)
        (.val (.pstr (String.mk (pre ++ ("##" ++ name ++ "##").toList ++ post)))) =
        .ok (String.mk (pre ++ r.toList ++ post))
      ∧ scanTokens (String.mk (pre ++ r.toList ++ post)) = []) := by
  refine ⟨resolve_references_ok_fields, value_proxy_ok_shape, self_reference_unmatched,
    value_proxy_token_error, rfl, ?_⟩
  intro root n name r pre post hne hn hpre hpost hr hsr
  refine ⟨resolveSingleToken root n name r pre post hne hn hpre hpost hsr, ?_⟩
  show scanGo (pre ++ r.toList ++ post) .plain = []
  apply scanGo_nohash
  simp only [List.all_append, Bool.and_eq_true]
  exact ⟨⟨hpre, hr⟩, hpost⟩

/-- C8 witness: the single-token conjunct applied on the standard tree to
the token full_address resolving to the '#'-free value "a@b". -/
theorem C8_witness :
    value_proxy (stdTree "a@b" "b" "a") 3
      (.val (.pstr (String.mk ("x ".toList ++
        ("##" ++ "full_address" ++ "##").toList ++ " y".toList)))) =
      .ok (String.mk ("x ".toList ++ "a@b".toList ++ " y".toList))
    ∧ scanTokens (String.mk ("x ".toList ++ "a@b".toList ++ " y".toList)) = [] :=
  C8_theorem.2.2.2.2.2 (stdTree "a@b" "b" "a") 2 "full_address" "a@b" "x ".toList " y".toList
    (by decide) (by decide) (by decide) (by decide) (by decide) rfl
